import Mathlib

/-!
Verification development for the article-hierarchy engine of a
content-management application.

The embedded code comes from two places in the repository:

* `src/lib/api.ts` — the `articleAPI` object: `getCategorizedHierarchy`
  (grouping by category), its helper `buildHierarchy` (recursive
  parent-filter with descending-`createdAt` sort), and `updateStatus`.
* the article-list page component — `fetchArticles`' two-pass root-tree
  construction, `toggleExpanded` over the expansion set, and `TableView`'s
  filtering/pagination (`filteredArticles`, `totalPages`,
  `paginatedArticles`) together with the state setters used by the
  page-size and filter controls.

Modelling conventions:

* Timestamps (`createdAt`, …) are modelled as natural numbers
  (milliseconds since epoch, the value `new Date(s).getTime()` yields);
  the JS code only ever compares them through `getTime()`.
* A database `NULL` / absent optional field is `Option.none`.
* JS string operations are modelled on `List Char` (`String.data`).
* `Array.prototype.sort` with the comparator
  `(a, b) => tb - ta` is a stable sort putting larger `createdAt` first;
  it is modelled by `List.insertionSort` with the matching total
  preorder, which is likewise stable.
* `buildHierarchy` in the source recurses by re-filtering the full list
  and does not terminate on cyclic `parentId` chains; the embedding
  takes an explicit recursion-depth budget (`fuel`).  The top-level
  entry point passes `length + 1`, which fully expands every acyclic
  input (the only inputs on which the source terminates at all).
-/

/-- `status: 'draft' | 'published'` from the `Article` interface. -/
inductive Status where
  | draft : Status
  | published : Status
deriving DecidableEq, Repr

/-- The string the status enum carries at runtime (the TS values are the
literal strings `"draft"` / `"published"`). -/
def Status.text : Status → String
  | .draft => "draft"
  | .published => "published"

/-- The flat `Article` record of `src/lib/api.ts` (the persisted shape;
the derived `children` field lives on `Node` below, as the spec's §9
suggests). -/
structure Article where
  id : String
  title : String
  slug : String
  content : String
  category : String
  status : Status
  parentId : Option String
  createdAt : Nat
  updatedAt : Nat
  publishedAt : Option Nat
  authorId : Option String
  featuredImage : Option String
  imageAlt : Option String
deriving DecidableEq, Repr

/-- A derived tree node: an article together with its computed
`children` sequence. -/
inductive Node where
  | mk : Article → List Node → Node

/-- The article stored at a node. -/
def Node.article : Node → Article
  | .mk a _ => a

/-- The computed `children` sequence of a node. -/
def Node.children : Node → List Node
  | .mk _ cs => cs

mutual

/-- All articles occurring in a derived tree: the node's own article and,
recursively, every article of its children. -/
def Node.allArticles : Node → List Article
  | .mk a cs => a :: allArticlesList cs

/-- All articles occurring in a list of derived trees. -/
def allArticlesList : List Node → List Article
  | [] => []
  | n :: t => n.allArticles ++ allArticlesList t

end

/-! ### Root-tree builder (`fetchArticles` in the article-list page)

The source builds a `Map` from `id` to a node wrapper (pass 1) and then,
for each record in order, either appends its node to its parent's
`children` (when `article.parentId && articleMap.has(article.parentId)`)
or pushes it onto `rootArticles` (pass 2).  Because the wrappers are
mutable and may form cycles, the embedding describes the result of
pass 2 directly: which records end up in the root list and which records
end up in the `children` sequence of the node with a given id, in
enumeration order. -/

/-- `articleMap.has x` after pass 1: some record of the list has id `x`. -/
def hasId (L : List Article) (x : String) : Bool :=
  L.any (fun b => b.id == x)

/-- The pass-2 test `article.parentId && articleMap.has(article.parentId)`
(JS truthiness: an absent/null `parentId` and the empty string are both
falsy). -/
def canAttach (L : List Article) (a : Article) : Bool :=
  match a.parentId with
  | none => false
  | some p => !(p == "") && hasId L p

/-- The `rootArticles` list produced by pass 2: records that fail the
attach test, in enumeration order. -/
def rootList (L : List Article) : List Article :=
  L.filter (fun a => !(canAttach L a))

/-- The records appended to the `children` sequence of the node with id
`i` during pass 2, in enumeration order. -/
def childrenOf (L : List Article) (i : String) : List Article :=
  L.filter (fun a => canAttach L a && (a.parentId == some i))

/-! ### Categorized forest (`getCategorizedHierarchy` / `buildHierarchy`
in `src/lib/api.ts`) -/

/-- `article.category || 'Uncategorized'`: the bucket key of a record
(JS truthiness: the empty string is falsy). -/
def effCategory (a : Article) : String :=
  if a.category = "" then "Uncategorized" else a.category

/-- The contents of bucket `c` after the grouping pass of
`getCategorizedHierarchy`: the records whose bucket key is `c`, in
enumeration order. -/
def bucketOf (L : List Article) (c : String) : List Article :=
  L.filter (fun a => effCategory a == c)

/-- The comparator passed to `.sort` in `buildHierarchy`:
`(a, b) => new Date(b.createdAt).getTime() - new Date(a.createdAt).getTime()`,
i.e. `a` may precede `b` iff `b.createdAt ≤ a.createdAt`. -/
def nodeGE (a b : Node) : Prop :=
  b.article.createdAt ≤ a.article.createdAt

instance : DecidableRel nodeGE := fun a b =>
  inferInstanceAs (Decidable (b.article.createdAt ≤ a.article.createdAt))

instance : IsTotal Node nodeGE :=
  ⟨fun a b => le_total b.article.createdAt a.article.createdAt⟩

instance : IsTrans Node nodeGE :=
  ⟨fun _ _ _ h h' => le_trans h' h⟩

/-- `articleAPI.buildHierarchy(articles, parentId)`: filter the list to
the records whose `parentId` equals the current level's value, attach
recursively computed children, and sort the level by descending
`createdAt`.  `fuel` bounds the recursion depth (see the header). -/
def buildHierarchy : Nat → List Article → Option String → List Node
  | 0, _, _ => []
  | fuel + 1, articles, parentId =>
    List.insertionSort nodeGE
      ((articles.filter (fun a => a.parentId == parentId)).map
        (fun a => Node.mk a (buildHierarchy fuel articles (some a.id))))

/-- Bucket `c` of the map returned by `getCategorizedHierarchy` for the
fetched list `L`: the hierarchy built within the bucket, starting from
`parentId = null`. -/
def getCategorizedBucket (L : List Article) (c : String) : List Node :=
  buildHierarchy (L.length + 1) (bucketOf L c) none

/-- A forest is level-wise sorted when every level — the top list and,
recursively, every node's `children` — is pairwise ordered by
non-increasing `createdAt`. -/
inductive SortedForest : List Node → Prop where
  | mk : ∀ (ns : List Node), List.Pairwise nodeGE ns →
      (∀ n ∈ ns, SortedForest n.children) → SortedForest ns

/-! ### View state: the expansion set (`toggleExpanded` in the
article-list page)

The source keeps `expandedNodes : Set<string>`; `toggleExpanded` copies
the set, then deletes the key when present and adds it when absent. -/

/-- `toggleExpanded(nodeId)`. -/
def toggleExpanded (expanded : Finset String) (nodeId : String) : Finset String :=
  if nodeId ∈ expanded then expanded.erase nodeId else insert nodeId expanded

/-! ### Table view: filtering and pagination (`TableView` in the
article-list page) -/

/-- The filter/pagination state held by the `ArticleList` component
(`searchQuery`, `selectedCategory`, `statusFilter`, `currentPage`,
`itemsPerPage`). -/
structure TableState where
  searchQuery : String
  selectedCategory : String
  statusFilter : String
  currentPage : Nat
  itemsPerPage : Nat
deriving DecidableEq, Repr

/-- JS `hay.includes(needle)` on the underlying character sequences. -/
def charsContain (needle : List Char) : List Char → Bool
  | [] => needle.isEmpty
  | c :: t => needle.isPrefixOf (c :: t) || charsContain needle t

/-- JS `hay.includes(needle)` for strings. -/
def jsIncludes (hay needle : String) : Bool :=
  charsContain needle.data hay.data

/-- JS `s.toLowerCase()` (character-wise lowercasing). -/
def jsToLower (s : String) : String :=
  ⟨s.data.map Char.toLower⟩

/-- The predicate of `TableView`'s `articles.filter(...)`: case-insensitive
substring match of the search query against title or content, AND the
category filter (`"all"` or equal), AND the status filter (`"all"` or
equal). -/
def matchesFilters (s : TableState) (a : Article) : Bool :=
  (jsIncludes (jsToLower a.title) (jsToLower s.searchQuery) ||
      jsIncludes (jsToLower a.content) (jsToLower s.searchQuery)) &&
    (s.selectedCategory == "all" || a.category == s.selectedCategory) &&
    (s.statusFilter == "all" || a.status.text == s.statusFilter)

/-- `filteredArticles` in `TableView`. -/
def filteredArticles (arts : List Article) (s : TableState) : List Article :=
  arts.filter (matchesFilters s)

/-- `totalPages = Math.ceil(filteredArticles.length / itemsPerPage)`;
the JS real division followed by `Math.ceil` is the rational ceiling. -/
def totalPages (arts : List Article) (s : TableState) : Nat :=
  Nat.ceil (((filteredArticles arts s).length : ℚ) / (s.itemsPerPage : ℚ))

/-- `paginatedArticles = filteredArticles.slice((currentPage - 1) *
itemsPerPage, currentPage * itemsPerPage)`. -/
def paginatedArticles (arts : List Article) (s : TableState) : List Article :=
  ((filteredArticles arts s).drop ((s.currentPage - 1) * s.itemsPerPage)).take
    (s.currentPage * s.itemsPerPage - (s.currentPage - 1) * s.itemsPerPage)

/-- The page-size `select`'s `onChange` handler: it calls only
`setItemsPerPage(Number(e.target.value))`, leaving every other piece of
state — in particular `currentPage` — untouched. -/
def changeItemsPerPage (s : TableState) (n : Nat) : TableState :=
  { s with itemsPerPage := n }

/-- The status-tab `onClick` handler: it calls only
`setStatusFilter(status)`. -/
def changeStatusFilter (s : TableState) (status : String) : TableState :=
  { s with statusFilter := status }

/-- The search input's `onChange` handler: it calls only
`setSearchQuery(e.target.value)`. -/
def changeSearchQuery (s : TableState) (q : String) : TableState :=
  { s with searchQuery := q }

/-- The category `select`'s `onChange` handler: it calls only
`setSelectedCategory(e.target.value)`. -/
def changeSelectedCategory (s : TableState) (c : String) : TableState :=
  { s with selectedCategory := c }

/-! ### Status update (`articleAPI.updateStatus` in `src/lib/api.ts`) -/

/-- The update payload built by `updateStatus`: `status`, plus
`publishedAt = new Date().toISOString()` when publishing and
`publishedAt = null` when moving to draft, applied to one row. -/
def applyStatus (st : Status) (now : Nat) (a : Article) : Article :=
  { a with
    status := st
    publishedAt := if st = Status.published then some now else none }

/-- Modelled from the spec: the persistence collaborator's update-by-id
operation (§6, `update-by-id` over the single `articles` collection) is
not part of the repository; it is modelled as rewriting exactly the rows
whose `id` matches, leaving all other rows and all unmentioned fields
unchanged.  The payload applied to the matching row is the one built by
`articleAPI.updateStatus` (which is in the source). `now` stands for
`new Date().toISOString()` at the moment of the call. -/
def updateStatus (store : List Article) (i : String) (st : Status) (now : Nat) :
    List Article :=
  store.map (fun a => if a.id == i then applyStatus st now a else a)

/-! ### Concrete inputs used by counterexamples and witnesses -/

/-- An article record with the given id, category, parent reference and
creation time; the remaining fields are fixed innocuous values. -/
def mkArt (i : String) (cat : String) (pid : Option String) (t : Nat) : Article :=
  ⟨i, "t", "s", "body", cat, Status.draft, pid, t, t, none, none, none, none⟩

/-- Scenario C, first record: `{id:1, category:"A"}`. -/
def scA : Article := mkArt "1" "A" none 2

/-- Scenario C, second record: `{id:2, parentId:1, category:"B"}`. -/
def scB : Article := mkArt "2" "B" (some "1") 1

/-- Scenario C input list. -/
def sc : List Article := [scA, scB]

/-- Two same-category articles sharing a `createdAt` timestamp. -/
def tieA : Article := mkArt "x1" "A" none 5

/-- Second article with the same `createdAt` as `tieA`. -/
def tieB : Article := mkArt "x2" "A" none 5

/-- Input with a `createdAt` tie inside one category. -/
def tieL : List Article := [tieA, tieB]

/-- Eleven matching articles: with `itemsPerPage = 10` they span two
pages. -/
def arts11 : List Article :=
  [mkArt "1" "News" none 1, mkArt "2" "News" none 2, mkArt "3" "News" none 3,
   mkArt "4" "News" none 4, mkArt "5" "News" none 5, mkArt "6" "News" none 6,
   mkArt "7" "News" none 7, mkArt "8" "News" none 8, mkArt "9" "News" none 9,
   mkArt "10" "News" none 10, mkArt "11" "News" none 11]

/-- A table state sitting on page 2 of 2 (no filters, page size 10). -/
def pageTwoState : TableState := ⟨"", "all", "all", 2, 10⟩

/-- Scenario D state: search `"foo"`, status filter `"published"`. -/
def scenarioDState : TableState := ⟨"foo", "all", "published", 1, 10⟩

/-- A published article for the Scenario D store (it does not match the
`"foo"` search). -/
def pubArt : Article :=
  ⟨"p1", "t", "s", "body", "News", Status.published, none, 1, 1, some 1,
    none, none, none⟩

/-- A small root/child pair: `w2a` is the parent of `w2b`. -/
def w2a : Article := mkArt "r1" "News" none 3

/-- Child of `w2a`. -/
def w2b : Article := mkArt "r2" "News" (some "r1") 4

/-- An orphan record: its `parentId` resolves to no known id. -/
def w3orphan : Article := mkArt "o1" "News" (some "missing") 9

/-- The article targeted by the status-update witness. -/
def w9target : Article := mkArt "a1" "News" none 1

/-- The targeted article after publishing at time 777. -/
def w9result : Article := applyStatus Status.published 777 w9target

/-- Two-article store for the status-update witness. -/
def w9store : List Article := [w9target, mkArt "a2" "News" none 2]

/-!
## Theorems
-/

theorem mem_allArticlesList (x : Article) :
    ∀ (ns : List Node), x ∈ allArticlesList ns ↔ ∃ n ∈ ns, x ∈ n.allArticles
  | [] => by simp [allArticlesList]
  | n :: t => by
    simp only [allArticlesList, List.mem_append, mem_allArticlesList x t, List.mem_cons]
    constructor
    · rintro (h | ⟨m, hm, hx⟩)
      exacts [⟨n, Or.inl rfl, h⟩, ⟨m, Or.inr hm, hx⟩]
    · rintro ⟨m, rfl | hm, hx⟩
      exacts [Or.inl hx, Or.inr ⟨m, hm, hx⟩]

/-- Everything placed in a tree by `buildHierarchy` comes from the input
list. -/
theorem buildHierarchy_mem :
    ∀ (fuel : Nat) (M : List Article) (p : Option String) (n : Node),
      n ∈ buildHierarchy fuel M p → ∀ a ∈ n.allArticles, a ∈ M := by
  intro fuel
  induction fuel with
  | zero => intro M p n hn; simp [buildHierarchy] at hn
  | succ fuel ih =>
    intro M p n hn a ha
    rw [buildHierarchy, List.mem_insertionSort, List.mem_map] at hn
    obtain ⟨b, hb, rfl⟩ := hn
    rw [List.mem_filter] at hb
    rw [Node.allArticles, List.mem_cons] at ha
    rcases ha with rfl | ha
    · exact hb.1
    · obtain ⟨m, hm, hx⟩ := (mem_allArticlesList a _).1 ha
      exact ih M (some b.id) m hm a hx

/-- Every article reached anywhere inside bucket `c` of the categorized
forest carries bucket key `c`. -/
theorem effCategory_of_mem_bucketTree (L : List Article) (c : String) (n : Node)
    (hn : n ∈ getCategorizedBucket L c) (a : Article) (ha : a ∈ n.allArticles) :
    effCategory a = c := by
  have hmem : a ∈ bucketOf L c := buildHierarchy_mem _ _ _ n hn a ha
  have := (List.mem_filter.1 hmem).2
  exact of_decide_eq_true this

/-- Every level produced by `buildHierarchy` is sorted by non-increasing
`createdAt` (the level itself and, recursively, all children levels). -/
theorem sortedForest_buildHierarchy :
    ∀ (fuel : Nat) (M : List Article) (p : Option String),
      SortedForest (buildHierarchy fuel M p) := by
  intro fuel
  induction fuel with
  | zero =>
    intro M p
    exact SortedForest.mk _ (by simp [buildHierarchy]) (by simp [buildHierarchy])
  | succ fuel ih =>
    intro M p
    refine SortedForest.mk _ ?_ ?_
    · exact List.sorted_insertionSort nodeGE _
    · intro n hn
      rw [buildHierarchy, List.mem_insertionSort, List.mem_map] at hn
      obtain ⟨b, _, rfl⟩ := hn
      exact ih M (some b.id)

/-- C10: every article appearing anywhere in bucket `c` of the
categorized forest — as a bucket root or nested at any depth — has
bucket key `c` (the key substitutes `"Uncategorized"` for an absent/empty
category): the buckets partition the input before any hierarchy is
built. -/
theorem c10_theorem (L : List Article) (c : String) (n : Node)
    (hn : n ∈ getCategorizedBucket L c) (a : Article) (ha : a ∈ n.allArticles) :
    effCategory a = c :=
  effCategory_of_mem_bucketTree L c n hn a ha

theorem c10_witness : effCategory scA = "A" :=
  c10_theorem sc "A" (Node.mk scA [])
    (by rw [show getCategorizedBucket sc "A" = [Node.mk scA []] from rfl]
        exact List.mem_singleton.2 rfl)
    scA
    (by rw [Node.allArticles]; exact List.mem_cons_self _ _)

/-- C5: when `A` and `B` carry distinct (non-empty) category labels `X`
and `Y` and `A.parentId = B.id`, `A` appears nowhere in bucket `Y` of the
categorized forest — in particular never below `B`'s node: parent/child
linkage is evaluated only within the same category bucket. -/
theorem c5_theorem (L : List Article) (A B : Article) (X Y : String)
    (hA : A ∈ L) (hB : B ∈ L) (hAX : A.category = X) (hBY : B.category = Y)
    (hXY : X ≠ Y) (hX : X ≠ "") (hY : Y ≠ "")
    (hpid : A.parentId = some B.id) (n : Node)
    (hn : n ∈ getCategorizedBucket L Y) : A ∉ n.allArticles := by
  intro ha
  have h1 : effCategory A = Y := effCategory_of_mem_bucketTree L Y n hn A ha
  have h2 : effCategory A = X := by rw [effCategory, hAX, if_neg hX]
  exact hXY (h2 ▸ h1)

theorem c5_witness : scB ∉ (Node.mk scA []).allArticles :=
  c5_theorem sc scB scA "B" "A" (by decide) (by decide) rfl rfl
    (by decide) (by decide) (by decide) rfl (Node.mk scA [])
    (by rw [show getCategorizedBucket sc "A" = [Node.mk scA []] from rfl]
        exact List.mem_singleton.2 rfl)

/-- C6 (amended): in every bucket of the categorized forest and at every
level of its trees, the nodes are ordered by non-increasing `createdAt`
(most recent first; ties may produce equal neighbours, so the order is
not strict). -/
theorem c6_theorem (L : List Article) (c : String) :
    SortedForest (getCategorizedBucket L c) :=
  sortedForest_buildHierarchy _ _ _

/-- C6 counterexample: two same-category articles created at the same
instant end up as neighbouring bucket roots with equal `createdAt`, so
the level's timestamps are not strictly descending. -/
theorem c6_counterexample :
    ¬ ((getCategorizedBucket tieL "A").map
        (fun n => n.article.createdAt)).Pairwise (fun x y => x > y) := by
  decide

/-- C1 counterexample: on Scenario C's input the categorized builder
returns an empty bucket `"B"` — the cross-category child `{id:2}` does
not appear as a root of its own category's bucket (its `parentId` is
neither `null` nor resolvable inside the bucket), so the claimed value
`[{id:2, children:[]}]` is wrong. -/
theorem c1_counterexample :
    ¬ (getCategorizedBucket sc "A" = [Node.mk scA []] ∧
       getCategorizedBucket sc "B" = [Node.mk scB []]) := by
  intro h
  have hB : getCategorizedBucket sc "B" = [] := rfl
  rw [hB] at h
  exact List.cons_ne_nil _ _ h.2.symm

/-- C1 (amended): on Scenario C's input, bucket `"A"` is
`[{id:1, children:[]}]` and bucket `"B"` is empty — the cross-category
child is dropped from the categorized forest entirely (the variant has
no dangling-parent-becomes-root fallback). -/
theorem c1_theorem :
    getCategorizedBucket sc "A" = [Node.mk scA []] ∧
    getCategorizedBucket sc "B" = [] :=
  ⟨rfl, rfl⟩

theorem sum_map_ite (q : Article → Bool) :
    ∀ (l : List Article), (l.map (fun x => if q x then 1 else 0)).sum = l.countP q
  | [] => by simp
  | b :: t => by
    simp only [List.map_cons, List.sum_cons, List.countP_cons, sum_map_ite q t]
    by_cases h : q b
    · simp [h]
      omega
    · simp [h]

/-- C2: under the data model's id-uniqueness, pass 2 of the root-tree
builder places every record in exactly one position — its total
multiplicity across the root list and all `children` sequences is 1
(no duplication, no loss). -/
theorem c2_theorem (L : List Article) (h : (L.map Article.id).Nodup)
    (a : Article) (ha : a ∈ L) :
    (rootList L).count a +
      (L.map (fun b => (childrenOf L b.id).count a)).sum = 1 := by
  have hL : L.Nodup := h.of_map
  have hcount : L.count a = 1 := List.count_eq_one_of_mem hL ha
  by_cases hca : canAttach L a = true
  · -- the record attaches to the children of its (unique) parent
    obtain ⟨p, hp⟩ : ∃ p, a.parentId = some p := by
      cases hpa : a.parentId with
      | none => simp [canAttach, hpa] at hca
      | some p => exact ⟨p, rfl⟩
    have hhas : hasId L p = true := by
      rw [canAttach, hp] at hca
      exact (Bool.and_eq_true_iff.1 hca).2
    obtain ⟨b₀, hb₀, hb₀id⟩ : ∃ b ∈ L, b.id = p := by
      obtain ⟨b, hb, hbe⟩ := List.any_eq_true.1 hhas
      exact ⟨b, hb, eq_of_beq hbe⟩
    have hroot : (rootList L).count a = 0 := by
      refine List.count_eq_zero.2 fun hmem => ?_
      have := (List.mem_filter.1 hmem).2
      rw [hca] at this
      simp at this
    have hch : ∀ b ∈ L,
        (childrenOf L b.id).count a = if b.id == p then 1 else 0 := by
      intro b hb
      by_cases hbp : b.id = p
      · rw [childrenOf, List.count_filter (by simp [hca, hp, hbp]), hcount]
        simp [hbp]
      · have : a ∉ childrenOf L b.id := fun hmem => by
          have hpred := (List.mem_filter.1 hmem).2
          rw [hp] at hpred
          simp at hpred
          exact hbp (hpred.2.symm)
        rw [List.count_eq_zero.2 this]
        simp [hbp]
    rw [hroot, List.map_congr_left hch, sum_map_ite]
    have hmapmem : p ∈ L.map Article.id := List.mem_map.2 ⟨b₀, hb₀, hb₀id⟩
    have hcp : (L.map Article.id).count p = 1 := List.count_eq_one_of_mem h hmapmem
    rw [List.count_eq_countP] at hcp
    rw [List.countP_map] at hcp
    simpa [Function.comp] using hcp
  · -- the record goes to the root list
    have hca' : canAttach L a = false := by
      cases hv : canAttach L a
      · rfl
      · exact absurd hv hca
    have hroot : (rootList L).count a = 1 := by
      rw [rootList, List.count_filter (by simp [hca']), hcount]
    have hzero : (L.map (fun b => (childrenOf L b.id).count a)).sum = 0 := by
      refine List.sum_eq_zero fun x hx => ?_
      obtain ⟨b, _, rfl⟩ := List.mem_map.1 hx
      refine List.count_eq_zero.2 fun hmem => ?_
      have hpred := (List.mem_filter.1 hmem).2
      rw [hca'] at hpred
      simp at hpred
    rw [hroot, hzero]

theorem c2_witness :
    (rootList [w2a, w2b]).count w2b +
      ([w2a, w2b].map (fun b => (childrenOf [w2a, w2b] b.id).count w2b)).sum = 1 :=
  c2_theorem [w2a, w2b] (by decide) w2b (by decide)

/-- C3: a record whose `parentId` resolves to no id in the list fails the
attach test and is pushed onto the root list — the dangling reference is
absorbed (the builder is total; no error path exists). -/
theorem c3_theorem (L : List Article) (a : Article) (X : String) (ha : a ∈ L)
    (hp : a.parentId = some X) (hno : ∀ b ∈ L, b.id ≠ X) : a ∈ rootList L := by
  refine List.mem_filter.2 ⟨ha, ?_⟩
  have hhas : hasId L X = false := by
    rw [hasId]
    simp only [List.any_eq_false, beq_iff_eq]
    exact hno
  simp [canAttach, hp, hhas]

theorem c3_witness : w3orphan ∈ rootList [w2a, w3orphan] :=
  c3_theorem [w2a, w3orphan] w3orphan "missing" (by decide) rfl (by decide)

/-- `Math.ceil` of the real division of naturals equals the rounded-up
natural division. -/
theorem nat_ceil_div (m n : Nat) (hn : 0 < n) :
    Nat.ceil ((m : ℚ) / (n : ℚ)) = (m + n - 1) / n := by
  rcases Nat.eq_zero_or_pos m with rfl | hm
  · simp
    exact (Nat.div_eq_of_lt (by omega)).symm
  · have hq1 : 1 ≤ (m + n - 1) / n := by
      rw [Nat.le_div_iff_mul_le hn]
      omega
    have hub : ((m + n - 1) / n) * n ≤ m + n - 1 := Nat.div_mul_le_self _ _
    have hlb : m + n - 1 < ((m + n - 1) / n) * n + n := by
      have h := (Nat.div_lt_iff_lt_mul hn).1 (Nat.lt_succ_self ((m + n - 1) / n))
      rw [Nat.succ_mul] at h
      exact h
    have g2 : m ≤ ((m + n - 1) / n) * n := by omega
    have g1 : (((m + n - 1) / n) - 1) * n < m := by
      rw [Nat.sub_mul, one_mul]
      omega
    rw [Nat.ceil_eq_iff (by omega)]
    constructor
    · rw [lt_div_iff₀ (by exact_mod_cast hn)]
      exact_mod_cast g1
    · rw [div_le_iff₀ (by exact_mod_cast hn)]
      exact_mod_cast g2

/-- C7: with a positive page size, `totalPages` is the rounded-up
quotient `⌈matchCount / pageSize⌉`; in particular a filter combination
matching zero records yields `totalPages = 0` and an empty page, with no
division error (the computation is total). -/
theorem c7_theorem (arts : List Article) (s : TableState)
    (h : 0 < s.itemsPerPage) :
    totalPages arts s =
      ((filteredArticles arts s).length + s.itemsPerPage - 1) / s.itemsPerPage ∧
    ((filteredArticles arts s).length = 0 →
      totalPages arts s = 0 ∧ paginatedArticles arts s = []) := by
  constructor
  · exact nat_ceil_div _ _ h
  · intro h0
    have hnil : filteredArticles arts s = [] := List.length_eq_zero.1 h0
    constructor
    · simp [totalPages, h0]
    · simp [paginatedArticles, hnil]

theorem c7_witness :
    totalPages [pubArt] scenarioDState = 0 ∧
    paginatedArticles [pubArt] scenarioDState = [] :=
  (c7_theorem [pubArt] scenarioDState (by decide)).2 (by decide)

/-- C4 is violated by the code: with eleven matching records and page
size 10, the table can legitimately sit on page 2 of 2; the page-size
control's handler then changes only `itemsPerPage` (to 20), after which
`totalPages = 1` while `currentPage` is still 2 — out of the valid range,
with no reset or clamp anywhere in the component. -/
theorem c4_code_bug :
    pageTwoState.currentPage ≤ totalPages arts11 pageTwoState ∧
    totalPages arts11 (changeItemsPerPage pageTwoState 20) = 1 ∧
    (changeItemsPerPage pageTwoState 20).currentPage = 2 ∧
    ¬ ((changeItemsPerPage pageTwoState 20).currentPage ≤
        totalPages arts11 (changeItemsPerPage pageTwoState 20)) := by
  have hlen : (filteredArticles arts11 pageTwoState).length = 11 := by decide
  have hlen2 :
      (filteredArticles arts11 (changeItemsPerPage pageTwoState 20)).length = 11 := by
    decide
  have h1 : totalPages arts11 pageTwoState = 2 := by
    show Nat.ceil
      (((filteredArticles arts11 pageTwoState).length : ℚ) / ((10 : Nat) : ℚ)) = 2
    rw [hlen]
    norm_num [Nat.ceil_eq_iff]
  have h2 : totalPages arts11 (changeItemsPerPage pageTwoState 20) = 1 := by
    show Nat.ceil
      (((filteredArticles arts11 (changeItemsPerPage pageTwoState 20)).length : ℚ) /
        ((20 : Nat) : ℚ)) = 1
    rw [hlen2]
    norm_num [Nat.ceil_eq_iff]
  refine ⟨?_, h2, rfl, ?_⟩
  · rw [h1]
    decide
  · rw [h2]
    decide

/-- C8: toggling a key is exactly the symmetric difference with the
singleton of that key — it adds the key when absent, removes it when
present, changes no other key's membership, and toggling twice restores
the set exactly. -/
theorem c8_theorem (s : Finset String) (k : String) :
    toggleExpanded (toggleExpanded s k) k = s ∧
    toggleExpanded s k = symmDiff s {k} ∧
    ∀ x : String, x ≠ k → (x ∈ toggleExpanded s k ↔ x ∈ s) := by
  refine ⟨?_, ?_, ?_⟩
  · by_cases hk : k ∈ s
    · have h1 : toggleExpanded s k = s.erase k := by rw [toggleExpanded, if_pos hk]
      rw [h1, toggleExpanded, if_neg (Finset.not_mem_erase k s),
        Finset.insert_erase hk]
    · have h1 : toggleExpanded s k = insert k s := by rw [toggleExpanded, if_neg hk]
      rw [h1, toggleExpanded, if_pos (Finset.mem_insert_self k s),
        Finset.erase_insert hk]
  · by_cases hk : k ∈ s
    · rw [toggleExpanded, if_pos hk]
      ext x
      by_cases hx : x = k <;> simp [Finset.mem_symmDiff, hx, hk]
    · rw [toggleExpanded, if_neg hk]
      ext x
      by_cases hx : x = k <;> simp [Finset.mem_symmDiff, hx, hk]
  · intro x hx
    rw [toggleExpanded]
    by_cases hk : k ∈ s <;> simp [hk, hx]

theorem c8_witness :
    ("b" ∈ toggleExpanded {"a"} "k" ↔ "b" ∈ ({"a"} : Finset String)) :=
  (c8_theorem {"a"} "k").2.2 "b" (by decide)

/-- C9: `updateStatus` keeps the store's length, leaves every row whose
id differs from the target unchanged, and on the targeted row changes
only `status` (to the requested one) and `publishedAt` (to the current
time when publishing, `null` when moving to draft), preserving every
other field. -/
theorem c9_theorem (store : List Article) (i : String) (st : Status) (now : Nat)
    (n : Nat) (hn : n < store.length)
    (hn' : n < (updateStatus store i st now).length)
    (a a' : Article) (ha : store.get ⟨n, hn⟩ = a)
    (ha' : (updateStatus store i st now).get ⟨n, hn'⟩ = a') :
    (updateStatus store i st now).length = store.length ∧
    (a.id ≠ i → a' = a) ∧
    (a.id = i →
      a'.status = st ∧
      a'.publishedAt = (if st = Status.published then some now else none) ∧
      a'.title = a.title ∧ a'.slug = a.slug ∧ a'.content = a.content ∧
      a'.category = a.category ∧ a'.parentId = a.parentId ∧
      a'.createdAt = a.createdAt ∧ a'.authorId = a.authorId ∧
      a'.featuredImage = a.featuredImage ∧ a'.imageAlt = a.imageAlt) := by
  have hget : a' = if a.id == i then applyStatus st now a else a := by
    rw [← ha', ← ha]
    simp [updateStatus, List.get_eq_getElem]
  refine ⟨by simp [updateStatus], ?_, ?_⟩
  · intro hne
    rw [hget, if_neg (by simp [hne])]
  · intro heq
    rw [hget, if_pos (by simp [heq])]
    simp [applyStatus]

theorem c9_witness :
    (updateStatus w9store "a1" Status.published 777).length = w9store.length ∧
    (w9target.id ≠ "a1" → w9result = w9target) ∧
    (w9target.id = "a1" →
      w9result.status = Status.published ∧
      w9result.publishedAt =
        (if Status.published = Status.published then some 777 else none) ∧
      w9result.title = w9target.title ∧ w9result.slug = w9target.slug ∧
      w9result.content = w9target.content ∧
      w9result.category = w9target.category ∧
      w9result.parentId = w9target.parentId ∧
      w9result.createdAt = w9target.createdAt ∧
      w9result.authorId = w9target.authorId ∧
      w9result.featuredImage = w9target.featuredImage ∧
      w9result.imageAlt = w9target.imageAlt) :=
  c9_theorem w9store "a1" Status.published 777 0 (by decide) (by decide)
    w9target w9result rfl rfl
